import Mathlib

/-!
Verification development for the `generalized_timeseries` data-processing
pipeline (`src/generalized_timeseries/data_processor.py`).

The pandas DataFrame is embedded as a list of named columns; a column is
either numeric (cells are IEEE-style extended rationals: a finite rational,
+inf, -inf, or NaN — pandas uses NaN as its missing marker for floats, so
`Cell.na` plays both roles) or an object column of optional strings (where
`none` is the missing marker).  Machine floats are modelled by exact
rationals; the claims under study concern control flow, row/column shape and
sign/zero cases of the arithmetic, not rounding.  The square root used by
`pandas.Series.std` and the `statsmodels` `adfuller` test statistic are
external computations: they enter as explicit function parameters
(`sqrtQ`, `adfuller`) so that every theorem quantifies over them.
Python exceptions are embedded as `Except String`, the message carried
verbatim; logging side effects are dropped (or, for `log_adf_results`,
returned as the list of per-series interpretation lines, which is the
observable the spec talks about).
-/

namespace Garch

/-- One cell of a numeric pandas column: NaN (also the missing marker),
positive/negative infinity, or a finite value. -/
inductive Cell where
  | na
  | pinf
  | ninf
  | num (q : ℚ)
deriving DecidableEq, Repr

namespace Cell

/-- `np.isfinite`: true exactly on finite numbers. -/
def isFinite : Cell → Bool
  | num _ => true
  | _ => false

/-- `pd.isnull` on a float cell: only NaN is missing. -/
def isNA : Cell → Bool
  | na => true
  | _ => false

/-- IEEE-style addition on extended values (NaN propagates, inf - inf = NaN). -/
def add : Cell → Cell → Cell
  | na, _ => na
  | _, na => na
  | num a, num b => num (a + b)
  | num _, pinf => pinf
  | num _, ninf => ninf
  | pinf, pinf => pinf
  | pinf, ninf => na
  | pinf, num _ => pinf
  | ninf, ninf => ninf
  | ninf, pinf => na
  | ninf, num _ => ninf

/-- IEEE-style subtraction (NaN propagates, inf - inf = NaN). -/
def sub : Cell → Cell → Cell
  | na, _ => na
  | _, na => na
  | num a, num b => num (a - b)
  | num _, pinf => ninf
  | num _, ninf => pinf
  | pinf, pinf => na
  | pinf, num _ => pinf
  | pinf, ninf => pinf
  | ninf, ninf => na
  | ninf, num _ => ninf
  | ninf, pinf => ninf

/-- IEEE-style multiplication (0 * inf = NaN). -/
def mul : Cell → Cell → Cell
  | na, _ => na
  | _, na => na
  | num a, num b => num (a * b)
  | num a, pinf => if a = 0 then na else if 0 < a then pinf else ninf
  | num a, ninf => if a = 0 then na else if 0 < a then ninf else pinf
  | pinf, num b => if b = 0 then na else if 0 < b then pinf else ninf
  | ninf, num b => if b = 0 then na else if 0 < b then ninf else pinf
  | pinf, pinf => pinf
  | pinf, ninf => ninf
  | ninf, pinf => ninf
  | ninf, ninf => pinf

/-- IEEE-style (numpy float) division: x/0 is NaN when x = 0 and a signed
infinity otherwise; numpy emits a warning but never raises. -/
def div : Cell → Cell → Cell
  | na, _ => na
  | _, na => na
  | num a, num b =>
      if b = 0 then (if a = 0 then na else if 0 < a then pinf else ninf)
      else num (a / b)
  | num _, pinf => num 0
  | num _, ninf => num 0
  | pinf, num b => if b < 0 then ninf else pinf
  | ninf, num b => if b < 0 then pinf else ninf
  | pinf, pinf => na
  | pinf, ninf => na
  | ninf, pinf => na
  | ninf, ninf => na

/-- Binary minimum on extended values (NaN absorbs, matching the fact that
the skipna reductions below only ever apply it to non-NaN cells). -/
def minB : Cell → Cell → Cell
  | na, _ => na
  | _, na => na
  | num a, num b => num (min a b)
  | num a, pinf => num a
  | pinf, num b => num b
  | pinf, pinf => pinf
  | ninf, _ => ninf
  | _, ninf => ninf

/-- Binary maximum on extended values, dual to `Cell.minB`. -/
def maxB : Cell → Cell → Cell
  | na, _ => na
  | _, na => na
  | num a, num b => num (max a b)
  | num a, ninf => num a
  | ninf, num b => num b
  | ninf, ninf => ninf
  | pinf, _ => pinf
  | _, pinf => pinf

end Cell

/-- Column payload: a numeric series or an object (string) series.  pandas
`select_dtypes(include=[np.number])` picks exactly the numeric ones. -/
inductive ColData where
  | numeric (cells : List Cell)
  | obj (cells : List (Option String))
deriving DecidableEq, Repr

namespace ColData

def isNumeric : ColData → Bool
  | numeric _ => true
  | obj _ => false

def len : ColData → Nat
  | numeric cs => cs.length
  | obj cs => cs.length

/-- Whether the cell at row `i` is missing (NaN for numeric, `None` for
object columns); rows outside the column are not missing. -/
def missingAt (d : ColData) (i : Nat) : Bool :=
  match d with
  | numeric cs => ((cs.get? i).map Cell.isNA).getD false
  | obj cs => ((cs.get? i).map Option.isNone).getD false

/-- Restrict a column to the rows listed in `idx` (in that order). -/
def selectRows (d : ColData) (idx : List Nat) : ColData :=
  match d with
  | numeric cs => numeric (idx.filterMap (fun i => cs.get? i))
  | obj cs => obj (idx.filterMap (fun i => cs.get? i))

end ColData

/-- A named DataFrame column. -/
structure Column where
  name : String
  data : ColData
deriving DecidableEq, Repr

/-- A DataFrame: ordered named columns (all of equal length in any table a
pandas DataFrame can represent; the uniformity is a hypothesis where a
theorem needs it). -/
abbrev Table := List Column

/-- Row count of a DataFrame, read off its first column. -/
def Table.nRows : Table → Nat
  | [] => 0
  | c :: _ => c.data.len

/-- Row `i` has a missing value in some column. -/
def rowMissing (t : Table) (i : Nat) : Bool :=
  t.any (fun c => c.data.missingAt i)

/-- Indices of the rows `DataFrame.dropna` keeps, in order. -/
def keepIdx (t : Table) : List Nat :=
  (List.range t.nRows).filter (fun i => !rowMissing t i)

/-- `DataFrame.dropna()`: drop every row containing a missing value. -/
def dropna (t : Table) : Table :=
  t.map (fun c => ⟨c.name, c.data.selectRows (keepIdx t)⟩)

/-- Forward fill over one series, carrying the last non-missing value seen
so far (`carry`); a missing cell with no carry is left as it is. -/
def ffillList {α : Type} (isna : α → Bool) : Option α → List α → List α
  | _, [] => []
  | carry, x :: xs =>
    if isna x then
      match carry with
      | some v => v :: ffillList isna (some v) xs
      | none => x :: ffillList isna none xs
    else x :: ffillList isna (some x) xs

/-- Last non-missing value of a prefix, seeded with `carry` (the state the
forward-fill scan carries). -/
def lastNonNaFrom {α : Type} (isna : α → Bool) (carry : Option α) (l : List α) :
    Option α :=
  l.foldl (fun acc x => if isna x then acc else some x) carry

/-- `DataFrame.fillna(method="ffill")` applied to one column. -/
def ColData.ffill : ColData → ColData
  | .numeric cs => .numeric (ffillList Cell.isNA none cs)
  | .obj cs => .obj (ffillList Option.isNone none cs)

/-- Python `str.lower()` for the ASCII strategy strings the factories
compare against (charwise lowercasing). -/
def pyLower (s : String) : String :=
  ⟨s.data.map Char.toLower⟩

/-- `MissingDataHandler.drop_na`: `data.dropna()`. -/
def MissingDataHandler.drop_na (data : Table) : Table :=
  dropna data

/-- `MissingDataHandler.forward_fill`: `data.fillna(method="ffill")`. -/
def MissingDataHandler.forward_fill (data : Table) : Table :=
  data.map (fun c => ⟨c.name, c.data.ffill⟩)

/-- `MissingDataHandlerFactory.create_handler`: dispatch on the lowered
strategy string, raising `ValueError` (the spec's `ConfigurationError`) on
anything else. -/
def MissingDataHandlerFactory.create_handler (strategy : String) :
    Except String (Table → Table) :=
  if pyLower strategy = "drop" then .ok MissingDataHandler.drop_na
  else if pyLower strategy = "forward_fill" then .ok MissingDataHandler.forward_fill
  else .error ("Unknown missing data strategy: " ++ strategy)

/-- `config.data_processor.handle_missing_values`. -/
structure HandleMissingValuesConfig where
  enabled : Bool
  strategy : String
deriving DecidableEq, Repr

/-- `config.data_processor.scaling`.  The configuration document carries an
`enabled` flag for every stage (spec §6); whether the code reads it is
exactly what claim C2 is about. -/
structure ScalingConfig where
  enabled : Bool
  method : String
deriving DecidableEq, Repr

/-- `config.data_processor.make_stationary`. -/
structure MakeStationaryConfig where
  enabled : Bool
  method : String
deriving DecidableEq, Repr

/-- `config.data_processor.test_stationarity`. -/
structure TestStationarityConfig where
  enabled : Bool
  method : String
  p_value_threshold : ℚ
deriving DecidableEq, Repr

/-- `config.data_processor`. -/
structure DataProcessorConfig where
  handle_missing_values : HandleMissingValuesConfig
  scaling : ScalingConfig
  make_stationary : MakeStationaryConfig
  test_stationarity : TestStationarityConfig
deriving DecidableEq, Repr

/-- The nested read-only configuration object threaded through the stages. -/
structure Config where
  data_processor : DataProcessorConfig
deriving DecidableEq, Repr

/-- `fill_data(df, config)`: skip when disabled, otherwise resolve the
configured strategy and apply it. -/
def fill_data (df : Table) (config : Config) : Except String Table :=
  if !config.data_processor.handle_missing_values.enabled then
    .ok df
  else
    (MissingDataHandlerFactory.create_handler
        config.data_processor.handle_missing_values.strategy).map
      (fun handler_missing => handler_missing df)

/-- Non-NaN cells of a series (the skipna filtering every pandas reduction
performs first). -/
def nonNA (cs : List Cell) : List Cell :=
  cs.filter (fun c => !c.isNA)

/-- `Series.sum` over non-NaN cells. -/
def cellSum (cs : List Cell) : Cell :=
  (nonNA cs).foldl Cell.add (Cell.num 0)

/-- `Series.mean()`: skipna mean, NaN when no value is present. -/
def cellMean (cs : List Cell) : Cell :=
  if (nonNA cs).length = 0 then Cell.na
  else (cellSum cs).div (Cell.num (nonNA cs).length)

/-- `Series.var()` (ddof = 1): skipna sample variance, NaN when fewer than
two values are present. -/
def cellVar (cs : List Cell) : Cell :=
  let v := nonNA cs
  if v.length ≤ 1 then Cell.na
  else
    let m := cellMean cs
    ((v.foldl (fun acc x => acc.add ((x.sub m).mul (x.sub m))) (Cell.num 0)).div
      (Cell.num (v.length - 1 : Nat)))

/-- Square root on extended values, with the finite branch delegated to the
external float routine `sqrtQ` (IEEE sqrt: NaN on negatives, `inf` at
`inf`). -/
def cellSqrt (sqrtQ : ℚ → ℚ) : Cell → Cell
  | Cell.na => Cell.na
  | Cell.pinf => Cell.pinf
  | Cell.ninf => Cell.na
  | Cell.num q => if q < 0 then Cell.na else Cell.num (sqrtQ q)

/-- `Series.std()` (ddof = 1): square root of the sample variance. -/
def cellStd (sqrtQ : ℚ → ℚ) (cs : List Cell) : Cell :=
  cellSqrt sqrtQ (cellVar cs)

/-- `Series.min()`: skipna minimum, NaN when no value is present. -/
def cellMin (cs : List Cell) : Cell :=
  match nonNA cs with
  | [] => Cell.na
  | x :: xs => xs.foldl Cell.minB x

/-- `Series.max()`: skipna maximum, NaN when no value is present. -/
def cellMax (cs : List Cell) : Cell :=
  match nonNA cs with
  | [] => Cell.na
  | x :: xs => xs.foldl Cell.maxB x

/-- `DataScaler.scale_data_standardize`: per numeric column,
`(x - mean) / std`; object columns are untouched.  `sqrtQ` is the float
square root inside `Series.std`. -/
def DataScaler.scale_data_standardize (sqrtQ : ℚ → ℚ) (data : Table) : Table :=
  data.map (fun c =>
    match c.data with
    | .numeric cs =>
        let m := cellMean cs
        let s := cellStd sqrtQ cs
        ⟨c.name, .numeric (cs.map (fun x => (x.sub m).div s))⟩
    | .obj _ => c)

/-- `DataScaler.scale_data_minmax`: per numeric column,
`(x - min) / (max - min)`; object columns are untouched. -/
def DataScaler.scale_data_minmax (data : Table) : Table :=
  data.map (fun c =>
    match c.data with
    | .numeric cs =>
        let mn := cellMin cs
        let mx := cellMax cs
        ⟨c.name, .numeric (cs.map (fun x => (x.sub mn).div (mx.sub mn)))⟩
    | .obj _ => c)

/-- `DataScalerFactory.create_handler`: dispatch on the lowered strategy
string, raising `ValueError` on anything else. -/
def DataScalerFactory.create_handler (sqrtQ : ℚ → ℚ) (strategy : String) :
    Except String (Table → Table) :=
  if pyLower strategy = "standardize" then .ok (DataScaler.scale_data_standardize sqrtQ)
  else if pyLower strategy = "minmax" then .ok DataScaler.scale_data_minmax
  else .error ("Unknown data scaling strategy: " ++ strategy)

/-- `scale_data(df, config)`: resolve the configured scaling method and
apply it.  Note: unlike `fill_data` and `make_stationary`, the source reads
no `enabled` flag here. -/
def scale_data (sqrtQ : ℚ → ℚ) (df : Table) (config : Config) :
    Except String Table :=
  (DataScalerFactory.create_handler sqrtQ config.data_processor.scaling.method).map
    (fun handler_scaler => handler_scaler df)

/-- `Series.diff()`: first discrete difference; the first row has no prior
value and becomes NaN, and NaN operands propagate through the subtraction. -/
def diffCells : List Cell → List Cell
  | [] => []
  | x :: xs => Cell.na :: List.zipWith Cell.sub xs (x :: xs)

/-- `.diff()` on a column.  The pipeline only ever differences numeric
columns (the loop iterates `select_dtypes` output, and overwritten `_diff`
columns are themselves numeric), so the object branch is inert. -/
def ColData.diff : ColData → ColData
  | .numeric cs => .numeric (diffCells cs)
  | .obj cs => .obj cs

/-- `data[column]`: the payload of the first column with the given name
(every use below looks up a name known to be present). -/
def getColData (t : Table) (nm : String) : ColData :=
  match t.find? (fun c => c.name = nm) with
  | some c => c.data
  | none => ColData.numeric []

/-- `data[name] = series`: overwrite the column(s) of that name in place,
or append a new column at the end. -/
def upsert (t : Table) (nm : String) (d : ColData) : Table :=
  if t.any (fun c => c.name = nm) then
    t.map (fun c => if c.name = nm then ⟨nm, d⟩ else c)
  else t ++ [⟨nm, d⟩]

/-- The `difference` loop body of `make_stationary`: for each name in the
`select_dtypes` snapshot, in order, set `data[f"{column}_diff"] =
data[column].diff()` (reading the current, possibly already overwritten,
column). -/
def addDiffColumns (data : Table) : Table :=
  ((data.filter (fun c => c.data.isNumeric)).map Column.name).foldl
    (fun acc column => upsert acc (column ++ "_diff") ((getColData acc column).diff))
    data

/-- `StationaryReturnsProcessor.make_stationary`: pass through when the
stage is disabled (before any method validation); with method
`difference`, append a `_diff` column per numeric column then `dropna()`;
any other method raises `ValueError`. -/
def StationaryReturnsProcessor.make_stationary (data : Table) (method : String)
    (config : Config) : Except String Table :=
  if !config.data_processor.make_stationary.enabled then
    .ok data
  else if pyLower method = "difference" then
    .ok (dropna (addDiffColumns data))
  else
    .error ("Unknown make_stationary method: " ++ method)

/-- One entry of the stationarity report: the dict
`{"ADF Statistic": result[0], "p-value": result[1]}`. -/
structure AdfRecord where
  statistic : ℚ
  p_value : ℚ
deriving DecidableEq, Repr

/-- `StationaryReturnsProcessor.test_stationarity`: only `adf` is
supported; every numeric column free of NaN/Inf is fed to the external
`adfuller` routine (here a parameter returning (statistic, p-value)), and
columns with NaN or Inf are skipped with a warning.  The report is the
insertion-ordered dict, embedded as an association list. -/
def StationaryReturnsProcessor.test_stationarity (adfuller : List Cell → ℚ × ℚ)
    (data : Table) (test : String) : Except String (List (String × AdfRecord)) :=
  if pyLower test ≠ "adf" then
    .error ("Unsupported stationarity test: " ++ test)
  else
    .ok (data.filterMap (fun c =>
      match c.data with
      | .numeric cs =>
          if cs.any (fun x => !x.isFinite) then none
          else some (c.name, ⟨(adfuller cs).1, (adfuller cs).2⟩)
      | .obj _ => none))

/-- The two interpretation sentences `log_adf_results` can emit (numeric
prefix of the message elided; it is float formatting of the same values). -/
def stationaryMsg : String :=
  "Data is stationary (reject null hypothesis)."

/-- Interpretation sentence for the non-stationary branch. -/
def nonStationaryMsg : String :=
  "Data is non-stationary (fail to reject null hypothesis)."

/-- The branch in `log_adf_results` choosing the interpretation line. -/
def interpretAdf (p_value p_value_threshold : ℚ) : String :=
  if p_value < p_value_threshold then stationaryMsg else nonStationaryMsg

/-- `StationaryReturnsProcessor.log_adf_results`: pure reporting.  The
Python returns `None` and only logs; the log lines (series name together
with its interpretation) are returned here as the observable output. -/
def StationaryReturnsProcessor.log_adf_results (data : List (String × AdfRecord))
    (p_value_threshold : ℚ) : List (String × String) :=
  data.map (fun e => (e.1, interpretAdf e.2.p_value p_value_threshold))

/-- `StationaryReturnsProcessorFactory.create_handler`: all three known
strategies return a (stateless) `StationaryReturnsProcessor`; anything else
raises `ValueError`.  The processor object carries no state. -/
def StationaryReturnsProcessorFactory.create_handler (strategy : String) :
    Except String Unit :=
  if pyLower strategy = "transform_to_stationary_returns" then .ok ()
  else if pyLower strategy = "test_stationarity" then .ok ()
  else if pyLower strategy = "log_stationarity" then .ok ()
  else .error ("Unknown stationary returns processing strategy: " ++ strategy)

/-- `stationarize_data(df, config)`: forward to `make_stationary` with the
configured method. -/
def stationarize_data (df : Table) (config : Config) : Except String Table :=
  StationaryReturnsProcessor.make_stationary df
    config.data_processor.make_stationary.method config

theorem ffillList_length {α : Type} (isna : α → Bool) :
    ∀ (carry : Option α) (l : List α), (ffillList isna carry l).length = l.length := by
  intro carry l
  induction l generalizing carry with
  | nil => rfl
  | cons x xs ih =>
    by_cases hx : isna x
    · cases carry with
      | some v => simp [ffillList, hx, ih]
      | none => simp [ffillList, hx, ih]
    · simp [ffillList, hx, ih]

theorem ffillList_get? {α : Type} (isna : α → Bool) :
    ∀ (l : List α) (carry : Option α) (i : Nat), i < l.length →
      (ffillList isna carry l).get? i =
        ((lastNonNaFrom isna carry (l.take (i + 1))).map some).getD (l.get? i) := by
  intro l
  induction l with
  | nil => intro carry i h; exact absurd h (by simp)
  | cons x xs ih =>
    intro carry i h
    cases i with
    | zero =>
      by_cases hx : isna x
      · cases carry with
        | some v => simp [ffillList, lastNonNaFrom, hx]
        | none => simp [ffillList, lastNonNaFrom, hx]
      · simp [ffillList, lastNonNaFrom, hx]
    | succ j =>
      have hj : j < xs.length := Nat.lt_of_succ_lt_succ h
      by_cases hx : isna x
      · cases carry with
        | some v => simpa [ffillList, lastNonNaFrom, hx] using ih (some v) j hj
        | none => simpa [ffillList, lastNonNaFrom, hx] using ih none j hj
      · simpa [ffillList, lastNonNaFrom, hx] using ih (some x) j hj

theorem lastNonNaFrom_eq_filter_getLast {α : Type} (isna : α → Bool) :
    ∀ (l : List α) (carry : Option α),
      lastNonNaFrom isna carry l =
        match (l.filter (fun y => !isna y)).getLast? with
        | some v => some v
        | none => carry := by
  intro l
  induction l with
  | nil => intro carry; simp [lastNonNaFrom]
  | cons x xs ih =>
    intro carry
    by_cases hx : isna x
    · simpa [lastNonNaFrom, hx] using ih carry
    · have step : lastNonNaFrom isna carry (x :: xs) = lastNonNaFrom isna (some x) xs := by
        simp [lastNonNaFrom, hx]
      rw [step, ih (some x)]
      cases hfl : xs.filter (fun y => !isna y) with
      | nil => simp [List.filter_cons, hx, hfl]
      | cons y ys =>
        obtain ⟨v, hv⟩ : ∃ v, (y :: ys).getLast? = some v :=
          ⟨(y :: ys).getLast (by simp), List.getLast?_eq_getLast _ (by simp)⟩
        simp [List.filter_cons, hx, hfl, hv]

theorem ffill_series_spec {α : Type} (isna : α → Bool) (cs : List α) (i : Nat)
    (x : α) (hx : cs.get? i = some x) :
    (isna x = false → (ffillList isna none cs).get? i = some x) ∧
    (isna x = true →
      (ffillList isna none cs).get? i =
        some ((((cs.take i).filter (fun y => !isna y)).getLast?).getD x)) := by
  obtain ⟨hi, -⟩ := List.get?_eq_some.mp hx
  have hx' : cs[i]? = some x := by rw [← List.get?_eq_getElem?]; exact hx
  have key := ffillList_get? isna cs none i hi
  have htake : cs.take (i + 1) = cs.take i ++ [x] := by
    rw [List.take_succ, hx']; rfl
  constructor
  · intro hxf
    rw [key, htake]
    have hlast : lastNonNaFrom isna none (cs.take i ++ [x]) = some x := by
      simp [lastNonNaFrom, List.foldl_append, hxf]
    simp [hlast]
  · intro hxt
    rw [key, htake]
    have hstep : lastNonNaFrom isna none (cs.take i ++ [x]) =
        lastNonNaFrom isna none (cs.take i) := by
      simp [lastNonNaFrom, List.foldl_append, hxt]
    rw [hstep, lastNonNaFrom_eq_filter_getLast]
    cases hgl : ((cs.take i).filter (fun y => !isna y)).getLast? with
    | some v => simp [hgl]
    | none => simp [hgl, hx']

/-- C6: `forward_fill` replaces each missing value having a preceding
non-missing value in its column by the most recent such value, leaves
non-missing cells alone, and leaves leading missing values (no prior
non-missing value, empty filtered prefix) missing — for numeric and for
object columns alike. -/
theorem forward_fill_replaces_missing_with_most_recent_preceding
    (data : Table) (k i : Nat) :
    (∀ nm cs x, data.get? k = some ⟨nm, .numeric cs⟩ → cs.get? i = some x →
      ∃ cs', (MissingDataHandler.forward_fill data).get? k = some ⟨nm, .numeric cs'⟩ ∧
        cs'.length = cs.length ∧
        (x.isNA = false → cs'.get? i = some x) ∧
        (x.isNA = true → cs'.get? i =
          some ((((cs.take i).filter (fun y => !y.isNA)).getLast?).getD x))) ∧
    (∀ nm cs x, data.get? k = some ⟨nm, .obj cs⟩ → cs.get? i = some x →
      ∃ cs', (MissingDataHandler.forward_fill data).get? k = some ⟨nm, .obj cs'⟩ ∧
        cs'.length = cs.length ∧
        (x.isNone = false → cs'.get? i = some x) ∧
        (x.isNone = true → cs'.get? i =
          some ((((cs.take i).filter (fun y => !y.isNone)).getLast?).getD x))) := by
  have hmap : ∀ k', (MissingDataHandler.forward_fill data).get? k' =
      (data.get? k').map (fun c => ⟨c.name, c.data.ffill⟩) := by
    intro k'
    simp [MissingDataHandler.forward_fill, List.get?_map]
  constructor
  · intro nm cs x hk hx
    refine ⟨ffillList Cell.isNA none cs, ?_, ffillList_length _ _ _, ?_, ?_⟩
    · rw [hmap k, hk]; rfl
    · exact (ffill_series_spec Cell.isNA cs i x hx).1
    · exact (ffill_series_spec Cell.isNA cs i x hx).2
  · intro nm cs x hk hx
    refine ⟨ffillList Option.isNone none cs, ?_, ffillList_length _ _ _, ?_, ?_⟩
    · rw [hmap k, hk]; rfl
    · exact (ffill_series_spec Option.isNone cs i x hx).1
    · exact (ffill_series_spec Option.isNone cs i x hx).2

/-- Witness for C6 on the column `[NaN, 1, NaN]`: the leading NaN stays
missing and the trailing NaN is filled with 1. -/
theorem forward_fill_replaces_missing_witness :
    ∃ cs' : List Cell,
      (MissingDataHandler.forward_fill
          [⟨"a", .numeric [Cell.na, Cell.num 1, Cell.na]⟩]).get? 0 =
        some ⟨"a", .numeric cs'⟩ ∧
      cs'.length = 3 ∧ cs'.get? 0 = some Cell.na ∧ cs'.get? 2 = some (Cell.num 1) := by
  obtain ⟨cs', h1, hlen, -, hna2⟩ :=
    (forward_fill_replaces_missing_with_most_recent_preceding
      [⟨"a", .numeric [Cell.na, Cell.num 1, Cell.na]⟩] 0 2).1
      "a" [Cell.na, Cell.num 1, Cell.na] Cell.na rfl rfl
  obtain ⟨cs'', h1', -, -, hna0⟩ :=
    (forward_fill_replaces_missing_with_most_recent_preceding
      [⟨"a", .numeric [Cell.na, Cell.num 1, Cell.na]⟩] 0 0).1
      "a" [Cell.na, Cell.num 1, Cell.na] Cell.na rfl rfl
  have hcs : cs' = cs'' := by
    have heq := h1.symm.trans h1'
    simpa using heq
  refine ⟨cs', h1, hlen, ?_, ?_⟩
  · rw [hcs]; simpa using hna0 rfl
  · simpa using hna2 rfl

theorem cell_div_zero_nonfinite (c : Cell) :
    (c.div (Cell.num 0)).isFinite = false := by
  cases c with
  | na => rfl
  | pinf => simp [Cell.div, Cell.isFinite]
  | ninf => simp [Cell.div, Cell.isFinite]
  | num a => simp only [Cell.div, if_pos rfl]; split_ifs <;> rfl

/-- C7: on a numeric column whose sample standard deviation is zero,
`scale_data_standardize` divides by it unguarded and completes (no
exception: numpy float division by zero only warns), and every cell of
that column comes out non-finite (NaN or ±Inf). -/
theorem standardize_zero_std_column_becomes_nonfinite
    (sqrtQ : ℚ → ℚ) (data : Table) (k : Nat) (nm : String) (cs : List Cell)
    (hk : data.get? k = some ⟨nm, .numeric cs⟩)
    (hstd : cellStd sqrtQ cs = Cell.num 0) :
    ∃ cs', (DataScaler.scale_data_standardize sqrtQ data).get? k =
        some ⟨nm, .numeric cs'⟩ ∧
      cs'.length = cs.length ∧
      ∀ y ∈ cs', y.isFinite = false := by
  refine ⟨cs.map (fun x => (x.sub (cellMean cs)).div (cellStd sqrtQ cs)), ?_,
    by simp, ?_⟩
  · have hmap : (DataScaler.scale_data_standardize sqrtQ data).get? k =
        (data.get? k).map (fun c =>
          match c.data with
          | .numeric cs =>
              ⟨c.name, .numeric (cs.map (fun x =>
                (x.sub (cellMean cs)).div (cellStd sqrtQ cs)))⟩
          | .obj _ => c) := by
      simp [DataScaler.scale_data_standardize, List.get?_map]
    rw [hmap, hk]; rfl
  · intro y hy
    obtain ⟨x, -, rfl⟩ := List.mem_map.mp hy
    rw [hstd]
    exact cell_div_zero_nonfinite _

/-- Witness for C7: the constant column `[5, 5]` has std 0; both scaled
values are non-finite. -/
theorem standardize_zero_std_column_becomes_nonfinite_witness :
    ∃ cs', (DataScaler.scale_data_standardize (fun q => q)
        [⟨"a", .numeric [Cell.num 5, Cell.num 5]⟩]).get? 0 =
      some ⟨"a", .numeric cs'⟩ ∧
      cs'.length = 2 ∧ ∀ y ∈ cs', y.isFinite = false := by
  have hstd : cellStd (fun q => q) [Cell.num 5, Cell.num 5] = Cell.num 0 := by
    norm_num [cellStd, cellVar, cellMean, cellSum, nonNA, Cell.isNA, Cell.add,
      Cell.sub, Cell.mul, Cell.div, cellSqrt]
  exact standardize_zero_std_column_becomes_nonfinite (fun q => q)
    [⟨"a", .numeric [Cell.num 5, Cell.num 5]⟩] 0 "a" [Cell.num 5, Cell.num 5]
    rfl hstd

theorem nonNA_map_num (qs : List ℚ) : nonNA (qs.map Cell.num) = qs.map Cell.num := by
  induction qs with
  | nil => rfl
  | cons q rest ih => simpa [nonNA, Cell.isNA] using ih

theorem exists_map_num_of_all_finite (cs : List Cell)
    (h : ∀ x ∈ cs, x.isFinite = true) : ∃ qs : List ℚ, cs = qs.map Cell.num := by
  induction cs with
  | nil => exact ⟨[], rfl⟩
  | cons x xs ih =>
    obtain ⟨qs, hqs⟩ := ih (fun y hy => h y (List.mem_cons_of_mem _ hy))
    cases x with
    | num q => exact ⟨q :: qs, by rw [hqs]; rfl⟩
    | na => exact absurd (h Cell.na (List.mem_cons_self _ _)) (by decide)
    | pinf => exact absurd (h Cell.pinf (List.mem_cons_self _ _)) (by decide)
    | ninf => exact absurd (h Cell.ninf (List.mem_cons_self _ _)) (by decide)

theorem foldl_minB_map_num (qs : List ℚ) (q : ℚ) :
    (qs.map Cell.num).foldl Cell.minB (Cell.num q) = Cell.num (qs.foldl min q) := by
  induction qs generalizing q with
  | nil => rfl
  | cons a as ih => simp [List.foldl_cons, Cell.minB, ih]

theorem foldl_maxB_map_num (qs : List ℚ) (q : ℚ) :
    (qs.map Cell.num).foldl Cell.maxB (Cell.num q) = Cell.num (qs.foldl max q) := by
  induction qs generalizing q with
  | nil => rfl
  | cons a as ih => simp [List.foldl_cons, Cell.maxB, ih]

theorem cellMin_cons_map_num (q : ℚ) (qs : List ℚ) :
    cellMin ((q :: qs).map Cell.num) = Cell.num (qs.foldl min q) := by
  have hna : nonNA ((q :: qs).map Cell.num) = Cell.num q :: qs.map Cell.num := by
    simpa using nonNA_map_num (q :: qs)
  rw [cellMin, hna]
  exact foldl_minB_map_num qs q

theorem cellMax_cons_map_num (q : ℚ) (qs : List ℚ) :
    cellMax ((q :: qs).map Cell.num) = Cell.num (qs.foldl max q) := by
  have hna : nonNA ((q :: qs).map Cell.num) = Cell.num q :: qs.map Cell.num := by
    simpa using nonNA_map_num (q :: qs)
  rw [cellMax, hna]
  exact foldl_maxB_map_num qs q

theorem foldl_min_map_comm (f : ℚ → ℚ) (hf : Monotone f) (qs : List ℚ) (q : ℚ) :
    (qs.map f).foldl min (f q) = f (qs.foldl min q) := by
  induction qs generalizing q with
  | nil => rfl
  | cons a as ih => simp only [List.map_cons, List.foldl_cons, ← hf.map_min, ih]

theorem foldl_max_map_comm (f : ℚ → ℚ) (hf : Monotone f) (qs : List ℚ) (q : ℚ) :
    (qs.map f).foldl max (f q) = f (qs.foldl max q) := by
  induction qs generalizing q with
  | nil => rfl
  | cons a as ih => simp only [List.map_cons, List.foldl_cons, ← hf.map_max, ih]

theorem minmax_cells_eq_map (qs : List ℚ) (mn mx : ℚ) (hne : mx - mn ≠ 0) :
    (qs.map Cell.num).map
        (fun x => (x.sub (Cell.num mn)).div ((Cell.num mx).sub (Cell.num mn))) =
      qs.map (fun v => Cell.num ((v - mn) / (mx - mn))) := by
  induction qs with
  | nil => rfl
  | cons a as ih => simp [Cell.sub, Cell.div, hne, ih]

theorem isFinite_exists_num (x : Cell) (h : x.isFinite = true) :
    ∃ a : ℚ, x = Cell.num a := by
  cases x <;> simp_all [Cell.isFinite]

theorem nonNA_map_comm (g : Cell → Cell) :
    ∀ cs : List Cell, (∀ x ∈ cs, (g x).isNA = x.isNA) →
      nonNA (cs.map g) = (nonNA cs).map g := by
  intro cs
  induction cs with
  | nil => intro _; rfl
  | cons x xs ih =>
    intro h
    have hx := h x (List.mem_cons_self _ _)
    have ih' := ih (fun y hy => h y (List.mem_cons_of_mem _ hy))
    cases hna : x.isNA with
    | true => simp [nonNA, List.filter_cons, hna, hx, ih'] at ih' ⊢; exact ih'
    | false => simp [nonNA, List.filter_cons, hna, hx] at ih' ⊢; exact ih'

/-- C8 counterexample: the numeric column `[0, +Inf]` has min 0 and max
+Inf, so its range is non-zero (max > min in the float order), yet the
code maps the +Inf cell to NaN (Inf/Inf) and the skipna maximum of the
output column is 0, not 1 — the claim fails on Inf-bearing columns. -/
theorem minmax_inf_column_counterexample :
    cellMin [Cell.num 0, Cell.pinf] = Cell.num 0 ∧
    cellMax [Cell.num 0, Cell.pinf] = Cell.pinf ∧
    DataScaler.scale_data_minmax [⟨"a", .numeric [Cell.num 0, Cell.pinf]⟩] =
      [⟨"a", .numeric [Cell.num 0, Cell.na]⟩] ∧
    cellMax [Cell.num 0, Cell.na] = Cell.num 0 ∧
    Cell.num 0 ≠ Cell.num 1 :=
  ⟨rfl, rfl, rfl, rfl, by decide⟩

/-- C8 amended: on a numeric column with no ±Inf cell (NaN cells allowed —
they pass through as NaN and are skipped by the min/max reductions) whose
skipna min < max, `scale_data_minmax` maps every cell by
`(x - min) / (max - min)`, NaN cells stay NaN, and the output column has
skipna minimum exactly 0 and maximum exactly 1; object (non-numeric)
columns pass through untouched.  With a ±Inf cell the input can still have
max > min while the output maximum is 0 (see the counterexample). -/
theorem minmax_no_inf_scales_to_unit_interval
    (data : Table) (k : Nat) (nm : String) (cs : List Cell)
    (hk : data.get? k = some ⟨nm, .numeric cs⟩)
    (hnoinf : ∀ x ∈ cs, x.isNA = true ∨ x.isFinite = true)
    (mn mx : ℚ) (hmn : cellMin cs = Cell.num mn) (hmx : cellMax cs = Cell.num mx)
    (hlt : mn < mx) :
    (∃ cs',
      (DataScaler.scale_data_minmax data).get? k = some ⟨nm, .numeric cs'⟩ ∧
      cs' = cs.map (fun x => (x.sub (cellMin cs)).div ((cellMax cs).sub (cellMin cs))) ∧
      (∀ i, cs.get? i = some Cell.na → cs'.get? i = some Cell.na) ∧
      cellMin cs' = Cell.num 0 ∧ cellMax cs' = Cell.num 1) ∧
    (∀ k' nm' os, data.get? k' = some ⟨nm', .obj os⟩ →
      (DataScaler.scale_data_minmax data).get? k' = some ⟨nm', .obj os⟩) := by
  have hne : mx - mn ≠ 0 := sub_ne_zero.mpr (ne_of_gt hlt)
  have hmap : ∀ k', (DataScaler.scale_data_minmax data).get? k' =
      (data.get? k').map (fun c =>
        match c.data with
        | .numeric cs =>
            ⟨c.name, .numeric (cs.map (fun x =>
              (x.sub (cellMin cs)).div ((cellMax cs).sub (cellMin cs))))⟩
        | .obj _ => c) := by
    intro k'
    simp [DataScaler.scale_data_minmax, List.get?_map]
  constructor
  · have hfinN : ∀ x ∈ nonNA cs, x.isFinite = true := by
      intro x hx
      obtain ⟨hxc, hxna⟩ := List.mem_filter.mp hx
      rcases hnoinf x hxc with h | h
      · rw [h] at hxna
        exact absurd hxna (by decide)
      · exact h
    obtain ⟨qs, hnn⟩ := exists_map_num_of_all_finite (nonNA cs) hfinN
    cases qs with
    | nil =>
      rw [cellMin, hnn, List.map_nil] at hmn
      exact absurd hmn (by simp)
    | cons q rest =>
      have hmono : Monotone (fun v : ℚ => (v - mn) / (mx - mn)) := by
        intro a b hab
        exact (div_le_div_right (sub_pos.mpr hlt)).mpr (sub_le_sub_right hab mn)
      have hcm : cellMin cs = Cell.num (rest.foldl min q) := by
        rw [cellMin, hnn, List.map_cons]
        exact foldl_minB_map_num rest q
      have hcmx : cellMax cs = Cell.num (rest.foldl max q) := by
        rw [cellMax, hnn, List.map_cons]
        exact foldl_maxB_map_num rest q
      have hfoldmin : rest.foldl min q = mn := Cell.num.inj (hcm.symm.trans hmn)
      have hfoldmax : rest.foldl max q = mx := Cell.num.inj (hcmx.symm.trans hmx)
      have hstat : ∀ x ∈ cs,
          ((x.sub (Cell.num mn)).div ((Cell.num mx).sub (Cell.num mn))).isNA =
            x.isNA := by
        intro x hx
        rcases hnoinf x hx with h | h
        · have hxna : x = Cell.na := by cases x <;> simp_all [Cell.isNA]
          rw [hxna]
          rfl
        · obtain ⟨v, rfl⟩ := isFinite_exists_num x h
          simp [Cell.sub, Cell.div, hne, Cell.isNA]
      have hnn2 : nonNA (cs.map (fun x =>
          (x.sub (Cell.num mn)).div ((Cell.num mx).sub (Cell.num mn)))) =
          ((q :: rest).map (fun v : ℚ => (v - mn) / (mx - mn))).map Cell.num := by
        rw [nonNA_map_comm _ cs hstat, hnn, minmax_cells_eq_map (q :: rest) mn mx hne,
          show (fun v : ℚ => Cell.num ((v - mn) / (mx - mn))) =
            Cell.num ∘ (fun v : ℚ => (v - mn) / (mx - mn)) from rfl, ← List.map_map]
      have hcmOut : cellMin (cs.map (fun x =>
          (x.sub (Cell.num mn)).div ((Cell.num mx).sub (Cell.num mn)))) =
          Cell.num ((rest.foldl min q - mn) / (mx - mn)) := by
        rw [cellMin, hnn2, List.map_cons, List.map_cons]
        refine (foldl_minB_map_num (rest.map fun v : ℚ => (v - mn) / (mx - mn))
          ((q - mn) / (mx - mn))).trans ?_
        congr 1
        exact foldl_min_map_comm (fun v : ℚ => (v - mn) / (mx - mn)) hmono rest q
      have hcmxOut : cellMax (cs.map (fun x =>
          (x.sub (Cell.num mn)).div ((Cell.num mx).sub (Cell.num mn)))) =
          Cell.num ((rest.foldl max q - mn) / (mx - mn)) := by
        rw [cellMax, hnn2, List.map_cons, List.map_cons]
        refine (foldl_maxB_map_num (rest.map fun v : ℚ => (v - mn) / (mx - mn))
          ((q - mn) / (mx - mn))).trans ?_
        congr 1
        exact foldl_max_map_comm (fun v : ℚ => (v - mn) / (mx - mn)) hmono rest q
      have hscale : cs.map (fun x =>
          (x.sub (cellMin cs)).div ((cellMax cs).sub (cellMin cs))) =
          cs.map (fun x =>
            (x.sub (Cell.num mn)).div ((Cell.num mx).sub (Cell.num mn))) := by
        rw [hmn, hmx]
      refine ⟨_, ?_, rfl, ?_, ?_, ?_⟩
      · rw [hmap k, hk]; rfl
      · intro i hi
        rw [List.get?_map, hi, hmn, hmx]
        rfl
      · rw [hscale, hcmOut, hfoldmin]
        norm_num
      · rw [hscale, hcmxOut, hfoldmax]
        simp [div_self hne]
  · intro k' nm' os hk'
    rw [hmap k', hk']; rfl

/-- Witness for C8 amended on the column `[1, NaN, 3]` (a NaN cell, no
Inf, range 2) next to an object column that must pass through. -/
theorem minmax_no_inf_scales_to_unit_interval_witness :
    ∃ cs',
      (DataScaler.scale_data_minmax
        [⟨"a", .numeric [Cell.num 1, Cell.na, Cell.num 3]⟩,
         ⟨"s", .obj [some "x"]⟩]).get? 0 = some ⟨"a", .numeric cs'⟩ ∧
      cs'.get? 1 = some Cell.na ∧
      cellMin cs' = Cell.num 0 ∧ cellMax cs' = Cell.num 1 ∧
      (DataScaler.scale_data_minmax
        [⟨"a", .numeric [Cell.num 1, Cell.na, Cell.num 3]⟩,
         ⟨"s", .obj [some "x"]⟩]).get? 1 = some ⟨"s", .obj [some "x"]⟩ := by
  obtain ⟨⟨cs', h1, -, hnan, h3, h4⟩, hobj⟩ := minmax_no_inf_scales_to_unit_interval
    [⟨"a", .numeric [Cell.num 1, Cell.na, Cell.num 3]⟩, ⟨"s", .obj [some "x"]⟩]
    0 "a" [Cell.num 1, Cell.na, Cell.num 3] rfl (by decide) 1 3
    (by norm_num [cellMin, nonNA, Cell.isNA, Cell.minB])
    (by norm_num [cellMax, nonNA, Cell.isNA, Cell.maxB])
    (by norm_num)
  exact ⟨cs', h1, hnan 1 rfl, h3, h4, hobj 1 "s" [some "x"] rfl⟩

theorem strAppend_cancel_right (a b s : String) (h : a ++ s = b ++ s) : a = b := by
  cases a with
  | mk da =>
  cases b with
  | mk db =>
  have hd := congrArg String.data h
  simp only [String.data_append] at hd
  exact congrArg String.mk (List.append_cancel_right hd)

theorem upsert_of_not_mem (t : Table) (nm : String) (d : ColData)
    (h : nm ∉ t.map Column.name) : upsert t nm d = t ++ [⟨nm, d⟩] := by
  have hany : t.any (fun c => c.name = nm) = false := by
    rw [List.any_eq_false]
    intro c hc
    simp only [decide_eq_true_eq]
    intro hcn
    exact h (hcn ▸ List.mem_map_of_mem Column.name hc)
  rw [upsert, hany]
  rfl

theorem find?_name_of_mem_nodup (t : Table)
    (hnd : (t.map Column.name).Nodup) (c : Column) (hc : c ∈ t) :
    t.find? (fun c' => c'.name = c.name) = some c := by
  induction t with
  | nil => exact absurd hc (List.not_mem_nil c)
  | cons h0 rest ih =>
    rcases List.mem_cons.mp hc with rfl | hmem
    · simp [List.find?_cons]
    · have hne : h0.name ≠ c.name := by
        intro heq
        exact (List.nodup_cons.mp hnd).1 (heq ▸ List.mem_map_of_mem Column.name hmem)
      rw [List.find?_cons]
      simp only [hne, decide_False]
      exact ih (List.nodup_cons.mp hnd).2 hmem

theorem getColData_append_left (t u : Table)
    (hnd : (t.map Column.name).Nodup) (c : Column) (hc : c ∈ t) :
    getColData (t ++ u) c.name = c.data := by
  rw [getColData, List.find?_append, find?_name_of_mem_nodup t hnd c hc]
  rfl

theorem addDiff_fold (t : Table) (hnd : (t.map Column.name).Nodup) :
    ∀ (todo : List Column) (extra : Table),
      (∀ c ∈ todo, c ∈ t) →
      ((todo.map Column.name).Nodup) →
      (∀ c ∈ todo, (c.name ++ "_diff") ∉ (t ++ extra).map Column.name) →
      (todo.map Column.name).foldl
        (fun acc column => upsert acc (column ++ "_diff")
          ((getColData acc column).diff)) (t ++ extra) =
      t ++ extra ++ todo.map (fun c => ⟨c.name ++ "_diff", c.data.diff⟩) := by
  intro todo
  induction todo with
  | nil => intro extra _ _ _; simp
  | cons c rest ih =>
    intro extra h1 h2 h3
    have hct : c ∈ t := h1 c (List.mem_cons_self _ _)
    have hread : getColData (t ++ extra) c.name = c.data :=
      getColData_append_left t extra hnd c hct
    have hfreshc : (c.name ++ "_diff") ∉ (t ++ extra).map Column.name :=
      h3 c (List.mem_cons_self _ _)
    have hstep : upsert (t ++ extra) (c.name ++ "_diff")
        ((getColData (t ++ extra) c.name).diff) =
        t ++ (extra ++ [⟨c.name ++ "_diff", c.data.diff⟩]) := by
      rw [hread, upsert_of_not_mem _ _ _ hfreshc, List.append_assoc]
    have hrest : ∀ c' ∈ rest,
        (c'.name ++ "_diff") ∉
          (t ++ (extra ++ ([⟨c.name ++ "_diff", c.data.diff⟩] : Table))).map
            Column.name := by
      intro c' hc'
      have hold := h3 c' (List.mem_cons_of_mem _ hc')
      have hnename : c'.name ≠ c.name := by
        intro heq
        exact (List.nodup_cons.mp h2).1 (heq ▸ List.mem_map_of_mem Column.name hc')
      intro hbad
      simp only [List.map_append, List.mem_append, List.map_cons, List.map_nil,
        List.mem_cons, List.not_mem_nil] at hbad hold
      rcases hbad with hbad | hbad | hbad
      · exact hold (Or.inl hbad)
      · exact hold (Or.inr hbad)
      · rcases hbad with hbad | hbad
        · exact hnename (strAppend_cancel_right _ _ _ hbad)
        · exact hbad
    calc (List.map Column.name (c :: rest)).foldl
          (fun acc column => upsert acc (column ++ "_diff")
            ((getColData acc column).diff)) (t ++ extra)
        = (List.map Column.name rest).foldl
            (fun acc column => upsert acc (column ++ "_diff")
              ((getColData acc column).diff))
            (t ++ (extra ++ [⟨c.name ++ "_diff", c.data.diff⟩])) := by
          rw [List.map_cons, List.foldl_cons, hstep]
      _ = t ++ (extra ++ [⟨c.name ++ "_diff", c.data.diff⟩]) ++
            rest.map (fun c => ⟨c.name ++ "_diff", c.data.diff⟩) :=
          ih _ (fun c' hc' => h1 c' (List.mem_cons_of_mem _ hc'))
            (List.nodup_cons.mp h2).2 hrest
      _ = t ++ extra ++
            (c :: rest).map (fun c => ⟨c.name ++ "_diff", c.data.diff⟩) := by
          simp [List.append_assoc]

/-- The `difference` loop appends, after the original columns, one fresh
`_diff` column per numeric column (computed from that column's original
cells), provided column names are distinct and no `X_diff` name collides
with an existing column. -/
theorem addDiffColumns_eq (t : Table)
    (hnd : (t.map Column.name).Nodup)
    (hfresh : ∀ c ∈ t, c.data.isNumeric = true →
      (c.name ++ "_diff") ∉ t.map Column.name) :
    addDiffColumns t =
      t ++ (t.filter (fun c => c.data.isNumeric)).map
        (fun c => ⟨c.name ++ "_diff", c.data.diff⟩) := by
  have h := addDiff_fold t hnd (t.filter (fun c => c.data.isNumeric)) []
    (fun c hc => (List.mem_filter.mp hc).1)
    (hnd.sublist (List.Sublist.map Column.name (List.filter_sublist t)))
    (by
      intro c hc
      obtain ⟨hct, hcn⟩ := List.mem_filter.mp hc
      simpa using hfresh c hct hcn)
  simpa [addDiffColumns] using h

theorem diffCells_length (cs : List Cell) : (diffCells cs).length = cs.length := by
  cases cs with
  | nil => rfl
  | cons x xs => simp [diffCells]

theorem diffCells_get?_zero (cs : List Cell) (h : cs ≠ []) :
    (diffCells cs).get? 0 = some Cell.na := by
  cases cs with
  | nil => exact absurd rfl h
  | cons x xs => rfl

theorem diffCells_get?_succ (cs : List Cell) (j : Nat) (x y : Cell)
    (hx : cs.get? j = some x) (hy : cs.get? (j + 1) = some y) :
    (diffCells cs).get? (j + 1) = some (y.sub x) := by
  cases cs with
  | nil => simp at hx
  | cons c0 rest =>
    have hr : (diffCells (c0 :: rest)).get? (j + 1) =
        (List.zipWith Cell.sub rest (c0 :: rest)).get? j := rfl
    have hrj : rest.get? j = some y := hy
    have hcj : (c0 :: rest).get? j = some x := hx
    rw [hr, List.get?_zipWith', hrj, hcj]
    rfl

theorem filterMap_all_some_length {α β : Type} (g : α → Option β) :
    ∀ l : List α, (∀ a ∈ l, (g a).isSome = true) →
      (l.filterMap g).length = l.length := by
  intro l
  induction l with
  | nil => intro _; rfl
  | cons a as ih =>
    intro h
    obtain ⟨b, hb⟩ := Option.isSome_iff_exists.mp (h a (List.mem_cons_self _ _))
    rw [List.filterMap_cons, hb]
    simpa using ih (fun a' ha' => h a' (List.mem_cons_of_mem _ ha'))

theorem filterMap_all_some_get? {α β : Type} (g : α → Option β) :
    ∀ (l : List α), (∀ a ∈ l, (g a).isSome = true) → ∀ j : Nat,
      (l.filterMap g).get? j = (l.get? j).bind g := by
  intro l
  induction l with
  | nil => intro _ j; simp
  | cons a as ih =>
    intro h j
    obtain ⟨b, hb⟩ := Option.isSome_iff_exists.mp (h a (List.mem_cons_self _ _))
    rw [List.filterMap_cons, hb]
    cases j with
    | zero => simp [hb]
    | succ i => simpa using ih (fun a' ha' => h a' (List.mem_cons_of_mem _ ha')) i

theorem dropna_map_name (t : Table) :
    (dropna t).map Column.name = t.map Column.name := by
  simp [dropna, List.map_map]

theorem make_stationary_difference_dispatch (t : Table) (config : Config)
    (hen : config.data_processor.make_stationary.enabled = true) :
    StationaryReturnsProcessor.make_stationary t "difference" config =
      .ok (dropna (addDiffColumns t)) := by
  simp [StationaryReturnsProcessor.make_stationary, hen,
    show pyLower "difference" = "difference" from rfl]

/-- C10 counterexample: on the table with numeric columns `a` and `a_diff`,
`make_stationary` with method `difference` overwrites the pre-existing
`a_diff` column (and then differences the overwritten values into
`a_diff_diff`), so an original column's surviving values are changed: the
output `a_diff` holds `[+Inf, -Inf]` although every input `a_diff` cell was
7. -/
theorem make_stationary_overwrites_diff_column_counterexample :
    StationaryReturnsProcessor.make_stationary
      [⟨"a", .numeric [Cell.pinf, Cell.ninf, Cell.pinf, Cell.ninf]⟩,
       ⟨"a_diff", .numeric [Cell.num 7, Cell.num 7, Cell.num 7, Cell.num 7]⟩]
      "difference"
      ⟨⟨⟨true, "drop"⟩, ⟨true, "minmax"⟩, ⟨true, "difference"⟩,
        ⟨true, "adf", 1⟩⟩⟩ =
      .ok [⟨"a", .numeric [Cell.pinf, Cell.ninf]⟩,
           ⟨"a_diff", .numeric [Cell.pinf, Cell.ninf]⟩,
           ⟨"a_diff_diff", .numeric [Cell.pinf, Cell.ninf]⟩] ∧
    Cell.pinf ∉ [Cell.num 7, Cell.num 7, Cell.num 7, Cell.num 7] := by
  exact ⟨rfl, by decide⟩

/-- C10 amended: provided column names are distinct and no input column is
named `X_diff` for a numeric column `X` (otherwise the loop overwrites it,
see the counterexample), `make_stationary` with method `difference` keeps
every original column (same names, in order, followed by exactly one new
`_diff` column per numeric column), and on the surviving rows the original
columns' values are unchanged (each original column is exactly its input
cells restricted to the kept row indices). -/
theorem make_stationary_difference_preserves_originals
    (t : Table) (config : Config)
    (hen : config.data_processor.make_stationary.enabled = true)
    (hnd : (t.map Column.name).Nodup)
    (hfresh : ∀ c ∈ t, c.data.isNumeric = true →
      (c.name ++ "_diff") ∉ t.map Column.name) :
    ∃ out,
      StationaryReturnsProcessor.make_stationary t "difference" config = .ok out ∧
      out.map Column.name =
        t.map Column.name ++
          (t.filter (fun c => c.data.isNumeric)).map (fun c => c.name ++ "_diff") ∧
      (∀ j c, t.get? j = some c →
        out.get? j = some ⟨c.name, c.data.selectRows (keepIdx (addDiffColumns t))⟩) := by
  refine ⟨dropna (addDiffColumns t),
    make_stationary_difference_dispatch t config hen, ?_, ?_⟩
  · rw [dropna_map_name, addDiffColumns_eq t hnd hfresh]
    simp [List.map_map]
  · intro j c hj
    obtain ⟨hjlt, -⟩ := List.get?_eq_some.mp hj
    have hget : (addDiffColumns t).get? j = some c := by
      rw [addDiffColumns_eq t hnd hfresh, List.get?_append hjlt, hj]
    simp only [dropna, List.get?_map, hget, Option.map_some']

/-- Witness for C10 amended on a two-column table (one numeric, one
object): both original columns survive with their kept rows, and one
`b_diff` column is appended. -/
theorem make_stationary_difference_preserves_originals_witness :
    ∃ out,
      StationaryReturnsProcessor.make_stationary
        [⟨"s", .obj [some "x", some "y"]⟩, ⟨"b", .numeric [Cell.pinf, Cell.ninf]⟩]
        "difference"
        ⟨⟨⟨true, "drop"⟩, ⟨true, "minmax"⟩, ⟨true, "difference"⟩,
          ⟨true, "adf", 1⟩⟩⟩ = .ok out ∧
      out.map Column.name = ["s", "b", "b_diff"] := by
  obtain ⟨out, hok, hnames, -⟩ :=
    make_stationary_difference_preserves_originals
      [⟨"s", .obj [some "x", some "y"]⟩, ⟨"b", .numeric [Cell.pinf, Cell.ninf]⟩]
      ⟨⟨⟨true, "drop"⟩, ⟨true, "minmax"⟩, ⟨true, "difference"⟩,
        ⟨true, "adf", 1⟩⟩⟩ rfl (by decide) (by decide)
  exact ⟨out, hok, by rw [hnames]; rfl⟩

theorem missingAt_false_numeric (cs : List Cell)
    (h : ∀ x ∈ cs, x.isFinite = true) (i : Nat) :
    (ColData.numeric cs).missingAt i = false := by
  rw [ColData.missingAt]
  cases hcs : cs.get? i with
  | none => rfl
  | some x =>
    have hx : x ∈ cs := List.get?_mem hcs
    have hfin := h x hx
    cases x <;> simp_all [Cell.isFinite, Cell.isNA]

theorem missingAt_false_obj (os : List (Option String))
    (h : ∀ o ∈ os, o.isSome = true) (i : Nat) :
    (ColData.obj os).missingAt i = false := by
  rw [ColData.missingAt]
  cases hos : os.get? i with
  | none => rfl
  | some o =>
    have ho : o ∈ os := List.get?_mem hos
    have hs := h o ho
    cases o with
    | none => exact absurd hs (by decide)
    | some s => simp_all

theorem selectRows_len (d : ColData) (idx : List Nat)
    (h : ∀ i ∈ idx, i < d.len) : (d.selectRows idx).len = idx.length := by
  cases d with
  | numeric cs =>
    exact filterMap_all_some_length _ idx (fun i hi => by
      rw [List.get?_eq_get (h i hi)]; rfl)
  | obj os =>
    exact filterMap_all_some_length _ idx (fun i hi => by
      rw [List.get?_eq_get (h i hi)]; rfl)

theorem getColData_dropna (x : Table) (nm : String) (col : Column)
    (h : x.find? (fun c => c.name = nm) = some col) :
    getColData (dropna x) nm = col.data.selectRows (keepIdx x) := by
  rw [getColData, dropna, List.find?_map,
    show ((fun (c : Column) => decide (c.name = nm)) ∘
        (fun c => (⟨c.name, c.data.selectRows (keepIdx x)⟩ : Column))) =
      (fun (c : Column) => decide (c.name = nm)) from rfl,
    h]
  rfl

/-- C3 counterexample: on a table with no numeric column (and in general on
empty tables), `difference` adds no `_diff` column and `dropna` drops no
row, so the output row count equals the input row count, not input − 1. -/
theorem difference_row_count_counterexample :
    StationaryReturnsProcessor.make_stationary
      [⟨"a", .obj [some "x"]⟩] "difference"
      ⟨⟨⟨true, "drop"⟩, ⟨true, "minmax"⟩, ⟨true, "difference"⟩,
        ⟨true, "adf", 1⟩⟩⟩ =
      .ok [⟨"a", .obj [some "x"]⟩] ∧
    Table.nRows [⟨"a", .obj [some "x"]⟩] = 1 ∧
    (1 : Nat) ≠ 1 - 1 :=
  ⟨rfl, rfl, by decide⟩

/-- C3 amended: on a table of uniform column length n ≥ 1 with distinct,
collision-free column names, at least one numeric column, all numeric cells
finite and all object cells present, `make_stationary` with method
`difference` returns a table with exactly n − 1 rows, and each new `_diff`
column satisfies diffed[t] = original[t] − original[t−1] at every valid
index (position j of the output diff column holds original[j+1] −
original[j]). -/
theorem make_stationary_difference_row_count
    (t : Table) (config : Config) (n : Nat)
    (hen : config.data_processor.make_stationary.enabled = true)
    (hnd : (t.map Column.name).Nodup)
    (hfresh : ∀ c ∈ t, c.data.isNumeric = true →
      (c.name ++ "_diff") ∉ t.map Column.name)
    (hlen : ∀ c ∈ t, c.data.len = n)
    (hn : 1 ≤ n)
    (hnum : ∃ c ∈ t, c.data.isNumeric = true)
    (hcleanN : ∀ c ∈ t, ∀ cs, c.data = ColData.numeric cs →
      ∀ x ∈ cs, x.isFinite = true)
    (hcleanO : ∀ c ∈ t, ∀ os, c.data = ColData.obj os →
      ∀ o ∈ os, o.isSome = true) :
    ∃ out,
      StationaryReturnsProcessor.make_stationary t "difference" config = .ok out ∧
      Table.nRows t = n ∧
      Table.nRows out = n - 1 ∧
      (∀ c ∈ t, ∀ cs, c.data = ColData.numeric cs →
        ∃ ds, getColData out (c.name ++ "_diff") = ColData.numeric ds ∧
          ds.length = n - 1 ∧
          (∀ j x y, cs.get? j = some x → cs.get? (j + 1) = some y →
            ds.get? j = some (y.sub x))) := by
  obtain ⟨cstar, hcstar, hcstarnum⟩ := hnum
  obtain ⟨m, rfl⟩ : ∃ m, n = m + 1 := ⟨n - 1, by omega⟩
  have hD := addDiffColumns_eq t hnd hfresh
  set D := (t.filter (fun c => c.data.isNumeric)).map
      (fun c => (⟨c.name ++ "_diff", c.data.diff⟩ : Column)) with hDdef
  have hDmem : ∀ d ∈ D, ∃ c, c ∈ t ∧ c.data.isNumeric = true ∧
      d = ⟨c.name ++ "_diff", c.data.diff⟩ := by
    intro d hd
    obtain ⟨c, hcf, rfl⟩ := List.mem_map.mp hd
    obtain ⟨hct, hcn⟩ := List.mem_filter.mp hcf
    exact ⟨c, hct, hcn, rfl⟩
  have hmissT : ∀ c ∈ t, ∀ i, c.data.missingAt i = false := by
    intro c hc i
    cases hd : c.data with
    | numeric cs => exact missingAt_false_numeric cs (hcleanN c hc cs hd) i
    | obj os => exact missingAt_false_obj os (hcleanO c hc os hd) i
  have hlenN : ∀ c ∈ t, ∀ cs, c.data = ColData.numeric cs →
      cs.length = m + 1 := by
    intro c hc cs hd
    have hl := hlen c hc
    rw [hd] at hl
    exact hl
  have hmissD0 : ∀ d ∈ D, d.data.missingAt 0 = true := by
    intro d hd
    obtain ⟨c, hct, hcn, rfl⟩ := hDmem d hd
    cases hdat : c.data with
    | obj os => rw [hdat] at hcn; simp [ColData.isNumeric] at hcn
    | numeric cs =>
      have hne : cs ≠ [] := by
        intro hnil
        have hl := hlenN c hct cs hdat
        rw [hnil] at hl
        simp at hl
      have h0 : (diffCells cs)[0]? = some Cell.na := by
        rw [← List.get?_eq_getElem?]
        exact diffCells_get?_zero cs hne
      simp [hdat, ColData.diff, ColData.missingAt, h0, Cell.isNA]
  have hmissDsucc : ∀ d ∈ D, ∀ j, j + 1 < m + 1 →
      d.data.missingAt (j + 1) = false := by
    intro d hd j hj
    obtain ⟨c, hct, hcn, rfl⟩ := hDmem d hd
    cases hdat : c.data with
    | obj os => rw [hdat] at hcn; simp [ColData.isNumeric] at hcn
    | numeric cs =>
      have hcslen : cs.length = m + 1 := hlenN c hct cs hdat
      have hjlt : j < cs.length := by omega
      have hj1lt : j + 1 < cs.length := by omega
      have hx : cs.get? j = some (cs.get ⟨j, hjlt⟩) := List.get?_eq_get hjlt
      have hy : cs.get? (j + 1) = some (cs.get ⟨j + 1, hj1lt⟩) :=
        List.get?_eq_get hj1lt
      obtain ⟨a, ha⟩ := isFinite_exists_num _
        (hcleanN c hct cs hdat _ (List.get_mem cs j hjlt))
      obtain ⟨b, hb⟩ := isFinite_exists_num _
        (hcleanN c hct cs hdat _ (List.get_mem cs (j + 1) hj1lt))
      have hsub : (cs.get ⟨j + 1, hj1lt⟩).sub (cs.get ⟨j, hjlt⟩) =
          Cell.num (b - a) := by
        rw [ha, hb]
        rfl
      have hdg : (diffCells cs)[j + 1]? = some (Cell.num (b - a)) := by
        rw [← List.get?_eq_getElem?, diffCells_get?_succ cs j _ _ hx hy, hsub]
      simp [hdat, ColData.diff, ColData.missingAt, hdg, Cell.isNA]
  have hnrowsT' : Table.nRows (t ++ D) = m + 1 := by
    cases t with
    | nil => exact absurd hcstar (List.not_mem_nil _)
    | cons c0 rest => exact hlen c0 (List.mem_cons_self _ _)
  have hrow0 : rowMissing (t ++ D) 0 = true := by
    rw [rowMissing, List.any_eq_true]
    refine ⟨⟨cstar.name ++ "_diff", cstar.data.diff⟩, ?_, ?_⟩
    · exact List.mem_append_right _
        (List.mem_map_of_mem _ (List.mem_filter.mpr ⟨hcstar, hcstarnum⟩))
    · exact hmissD0 _
        (List.mem_map_of_mem _ (List.mem_filter.mpr ⟨hcstar, hcstarnum⟩))
  have hrowS : ∀ j, j + 1 < m + 1 → rowMissing (t ++ D) (j + 1) = false := by
    intro j hj
    rw [rowMissing, List.any_eq_false]
    intro d hd
    rcases List.mem_append.mp hd with hdt | hdD
    · simp [hmissT d hdt (j + 1)]
    · simp [hmissDsucc d hdD j hj]
  have hkeep : keepIdx (t ++ D) = (List.range m).map Nat.succ := by
    rw [keepIdx, hnrowsT', List.range_succ_eq_map, List.filter_cons]
    have h0 : (!rowMissing (t ++ D) 0) = false := by rw [hrow0]; rfl
    rw [h0]
    simp only [Bool.false_eq_true, if_false, List.filter_map]
    congr 1
    apply List.filter_eq_self.mpr
    intro j hj
    have hjm : j < m := List.mem_range.mp hj
    simp [Function.comp, hrowS j (by omega)]
  have hidxlt : ∀ i ∈ (List.range m).map Nat.succ, i < m + 1 := by
    intro i hi
    obtain ⟨j, hj, rfl⟩ := List.mem_map.mp hi
    have := List.mem_range.mp hj
    omega
  refine ⟨dropna (t ++ D), ?_, ?_, ?_, ?_⟩
  · exact (make_stationary_difference_dispatch t config hen).trans (by rw [hD])
  · cases t with
    | nil => exact absurd hcstar (List.not_mem_nil _)
    | cons c0 rest => exact hlen c0 (List.mem_cons_self _ _)
  · cases t with
    | nil => exact absurd hcstar (List.not_mem_nil _)
    | cons c0 rest =>
      show (c0.data.selectRows (keepIdx ((c0 :: rest) ++ D))).len = m + 1 - 1
      rw [hkeep, selectRows_len]
      · simp
      · intro i hi
        have hlt := hidxlt i hi
        have hl0 := hlen c0 (List.mem_cons_self _ _)
        omega
  · intro c hc cs hdat
    have hinj : Function.Injective (fun s : String => s ++ "_diff") :=
      fun a b h => strAppend_cancel_right a b _ h
    have hfn : ((t.filter (fun c => c.data.isNumeric)).map Column.name).Nodup :=
      hnd.sublist (List.Sublist.map _ (List.filter_sublist t))
    have hDnames : D.map Column.name =
        ((t.filter (fun c => c.data.isNumeric)).map Column.name).map
          (fun s => s ++ "_diff") := by
      simp [hDdef, List.map_map]
    have hndD : (D.map Column.name).Nodup := by
      rw [hDnames]
      exact hfn.map hinj
    have hdisj : List.Disjoint (t.map Column.name) (D.map Column.name) := by
      intro s hst hsD
      rw [hDnames] at hsD
      obtain ⟨s', hs', rfl⟩ := List.mem_map.mp hsD
      obtain ⟨c', hc'f, rfl⟩ := List.mem_map.mp hs'
      obtain ⟨hc't, hc'n⟩ := List.mem_filter.mp hc'f
      exact hfresh c' hc't hc'n hst
    have hnd' : ((t ++ D).map Column.name).Nodup := by
      rw [List.map_append]
      exact List.Nodup.append hnd hndD hdisj
    have hmemD : (⟨c.name ++ "_diff", c.data.diff⟩ : Column) ∈ t ++ D := by
      refine List.mem_append_right _ (List.mem_map_of_mem _ ?_)
      refine List.mem_filter.mpr ⟨hc, ?_⟩
      rw [hdat]
      rfl
    have hfind : (t ++ D).find?
        (fun c' => c'.name = c.name ++ "_diff") = some ⟨c.name ++ "_diff", c.data.diff⟩ :=
      find?_name_of_mem_nodup (t ++ D) hnd' ⟨c.name ++ "_diff", c.data.diff⟩ hmemD
    have hgc : getColData (dropna (t ++ D)) (c.name ++ "_diff") =
        (c.data.diff).selectRows (keepIdx (t ++ D)) :=
      getColData_dropna (t ++ D) (c.name ++ "_diff") _ hfind
    have hcslen : cs.length = m + 1 := hlenN c hc cs hdat
    have hsome : ∀ i ∈ (List.range m).map Nat.succ,
        ((diffCells cs).get? i).isSome = true := by
      intro i hi
      have hlt : i < (diffCells cs).length := by
        rw [diffCells_length, hcslen]
        exact hidxlt i hi
      rw [List.get?_eq_get hlt]
      rfl
    have hgc2 : getColData (dropna (t ++ D)) (c.name ++ "_diff") =
        ColData.numeric (((List.range m).map Nat.succ).filterMap
          (fun i => (diffCells cs).get? i)) := by
      rw [hgc, hdat, hkeep]
      rfl
    refine ⟨((List.range m).map Nat.succ).filterMap
      (fun i => (diffCells cs).get? i), hgc2, ?_, ?_⟩
    · rw [filterMap_all_some_length _ _ hsome]
      simp
    · intro j x y hx hy
      have hj1 : j + 1 < m + 1 := by
        have := (List.get?_eq_some.mp hy).1
        omega
      have hjm : j < m := by omega
      have hidxget : ((List.range m).map Nat.succ).get? j = some (j + 1) := by
        rw [List.get?_map, List.get?_range hjm]
        rfl
      rw [filterMap_all_some_get? _ _ hsome j, hidxget]
      simpa using diffCells_get?_succ cs j x y hx hy

/-- Witness for C3 amended: a 3-row numeric column yields 2 rows and a
diff column whose first entry is original[1] − original[0]. -/
theorem make_stationary_difference_row_count_witness :
    ∃ out,
      StationaryReturnsProcessor.make_stationary
        [⟨"b", .numeric [Cell.num 1, Cell.num 2, Cell.num 4]⟩] "difference"
        ⟨⟨⟨true, "drop"⟩, ⟨true, "minmax"⟩, ⟨true, "difference"⟩,
          ⟨true, "adf", 1⟩⟩⟩ = .ok out ∧
      Table.nRows out = 2 ∧
      ∃ ds, getColData out "b_diff" = ColData.numeric ds ∧ ds.length = 2 ∧
        ds.get? 0 = some ((Cell.num 2).sub (Cell.num 1)) := by
  obtain ⟨out, hok, -, hrows, hdiff⟩ := make_stationary_difference_row_count
    [⟨"b", .numeric [Cell.num 1, Cell.num 2, Cell.num 4]⟩]
    ⟨⟨⟨true, "drop"⟩, ⟨true, "minmax"⟩, ⟨true, "difference"⟩,
      ⟨true, "adf", 1⟩⟩⟩ 3 rfl (by decide) (by decide) (by decide) (by decide)
    ⟨⟨"b", .numeric [Cell.num 1, Cell.num 2, Cell.num 4]⟩,
      List.mem_cons_self _ _, rfl⟩
    (by
      intro c hc cs hdat
      rcases List.mem_cons.mp hc with rfl | h'
      · obtain rfl := ColData.numeric.inj hdat
        decide
      · exact absurd h' (List.not_mem_nil _))
    (by
      intro c hc os hdat
      rcases List.mem_cons.mp hc with rfl | h'
      · exact ColData.noConfusion hdat
      · exact absurd h' (List.not_mem_nil _))
  obtain ⟨ds, hds, hdslen, hvals⟩ := hdiff
    ⟨"b", .numeric [Cell.num 1, Cell.num 2, Cell.num 4]⟩
    (List.mem_cons_self _ _) [Cell.num 1, Cell.num 2, Cell.num 4] rfl
  exact ⟨out, hok, hrows, ds, hds, hdslen,
    hvals 0 (Cell.num 1) (Cell.num 2) rfl rfl⟩

/-- C4: with test `adf`, `test_stationarity` returns (never fails): its
report has an entry exactly for each numeric column whose cells are all
finite (no NaN, no ±Inf) — columns with a missing or non-finite value, and
object columns, are absent — and each entry carries the statistic and
p-value the external `adfuller` routine produced for that column. -/
theorem test_stationarity_report_is_finite_numeric_columns
    (adfuller : List Cell → ℚ × ℚ) (data : Table) (test : String)
    (h : pyLower test = "adf") :
    ∃ report,
      StationaryReturnsProcessor.test_stationarity adfuller data test = .ok report ∧
      (∀ nm, (∃ r, (nm, r) ∈ report) ↔
        (∃ cs, (⟨nm, .numeric cs⟩ : Column) ∈ data ∧ ∀ x ∈ cs, x.isFinite = true)) ∧
      (∀ e ∈ report, ∃ cs, (⟨e.1, .numeric cs⟩ : Column) ∈ data ∧
        (∀ x ∈ cs, x.isFinite = true) ∧
        e.2 = ⟨(adfuller cs).1, (adfuller cs).2⟩) := by
  refine ⟨data.filterMap (fun c =>
      match c.data with
      | .numeric cs =>
          if cs.any (fun x => !x.isFinite) then none
          else some (c.name, ⟨(adfuller cs).1, (adfuller cs).2⟩)
      | .obj _ => none), ?_, ?_, ?_⟩
  · simp [StationaryReturnsProcessor.test_stationarity, h]
  · intro nm
    constructor
    · rintro ⟨r, hr⟩
      obtain ⟨c, hc, hfc⟩ := List.mem_filterMap.mp hr
      cases hd : c.data with
      | numeric cs =>
        rw [hd] at hfc
        by_cases hany : cs.any (fun x => !x.isFinite)
        · simp [hany] at hfc
        · have hany' : cs.any (fun x => !x.isFinite) = false := by simpa using hany
          simp [hany'] at hfc
          obtain ⟨hnm, -⟩ := hfc
          refine ⟨cs, ?_, ?_⟩
          · have hceq : c = ⟨nm, .numeric cs⟩ := by
              cases c; simp_all
            exact hceq ▸ hc
          · intro x hx
            simpa using List.any_eq_false.mp hany' x hx
      | obj cs => rw [hd] at hfc; simp at hfc
    · rintro ⟨cs, hmem, hfin⟩
      refine ⟨⟨(adfuller cs).1, (adfuller cs).2⟩, List.mem_filterMap.mpr
        ⟨⟨nm, .numeric cs⟩, hmem, ?_⟩⟩
      have hany : cs.any (fun x => !x.isFinite) = false :=
        List.any_eq_false.mpr (fun x hx => by simp [hfin x hx])
      simp [hany]
  · intro e he
    obtain ⟨c, hc, hfc⟩ := List.mem_filterMap.mp he
    cases hd : c.data with
    | numeric cs =>
      rw [hd] at hfc
      by_cases hany : cs.any (fun x => !x.isFinite)
      · simp [hany] at hfc
      · have hany' : cs.any (fun x => !x.isFinite) = false := by simpa using hany
        have hfc' : (c.name, (⟨(adfuller cs).1, (adfuller cs).2⟩ : AdfRecord)) = e := by
          simpa [hany'] using hfc
        refine ⟨cs, ?_, ?_, ?_⟩
        · have hne : e.1 = c.name := (congrArg Prod.fst hfc').symm
          have hceq : (⟨e.1, ColData.numeric cs⟩ : Column) = c := by
            rw [hne, ← hd]
          rw [hceq]; exact hc
        · intro x hx
          simpa using List.any_eq_false.mp hany' x hx
        · rw [← hfc']
    | obj cs => rw [hd] at hfc; simp at hfc

/-- Witness for C4: the column with a NaN is skipped, the all-finite
column "b" is reported with the oracle's statistic and p-value. -/
theorem test_stationarity_report_witness :
    ∃ report,
      StationaryReturnsProcessor.test_stationarity (fun _ => (1, 2))
        [⟨"a", .numeric [Cell.num 1, Cell.na]⟩,
         ⟨"b", .numeric [Cell.num 1, Cell.num 2]⟩,
         ⟨"c", .obj [some "x", none]⟩] "adf" = .ok report ∧
      (∃ r, ("b", r) ∈ report) ∧ ¬ (∃ r, ("a", r) ∈ report) := by
  obtain ⟨report, hok, hkeys, -⟩ :=
    test_stationarity_report_is_finite_numeric_columns (fun _ => (1, 2))
      [⟨"a", .numeric [Cell.num 1, Cell.na]⟩,
       ⟨"b", .numeric [Cell.num 1, Cell.num 2]⟩,
       ⟨"c", .obj [some "x", none]⟩] "adf" (by decide)
  refine ⟨report, hok, (hkeys "b").mpr ⟨[Cell.num 1, Cell.num 2], ?_, ?_⟩, ?_⟩
  · simp
  · intro x hx
    rcases List.mem_cons.mp hx with h1 | h1
    · rw [h1]; rfl
    · rcases List.mem_cons.mp h1 with h2 | h2
      · rw [h2]; rfl
      · exact absurd h2 (List.not_mem_nil _)
  · rintro ⟨r, hr⟩
    obtain ⟨cs, hmem, hfin⟩ := (hkeys "a").mp ⟨r, hr⟩
    have hcs : cs = [Cell.num 1, Cell.na] := by
      rcases List.mem_cons.mp hmem with h1 | h1
      · exact ColData.numeric.inj (congrArg Column.data h1)
      · rcases List.mem_cons.mp h1 with h2 | h2
        · have hab : ("a" : String) = "b" := congrArg Column.name h2
          exact absurd hab (by decide)
        · rcases List.mem_cons.mp h2 with h3 | h3
          · have hac : ("a" : String) = "c" := congrArg Column.name h3
            exact absurd hac (by decide)
          · exact absurd h3 (List.not_mem_nil _)
    have : (Cell.na).isFinite = true := hfin Cell.na (by rw [hcs]; simp)
    exact absurd this (by decide)

/-- C1: for each of the three strategy resolvers independently, a strategy
string whose lowercasing is outside that resolver's own fixed enumerated
set makes that resolver return the `ValueError` (the spec's
`ConfigurationError`) whose message names the offending string, never a
transform — each resolver's case is guarded only by its own set, so e.g.
"drop" is covered for the scaler and stationarity resolvers. -/
theorem unknown_strategy_raises_configuration_error (strategy : String) :
    (pyLower strategy ≠ "drop" → pyLower strategy ≠ "forward_fill" →
      MissingDataHandlerFactory.create_handler strategy =
        .error ("Unknown missing data strategy: " ++ strategy)) ∧
    (pyLower strategy ≠ "standardize" → pyLower strategy ≠ "minmax" →
      ∀ sqrtQ : ℚ → ℚ, DataScalerFactory.create_handler sqrtQ strategy =
        .error ("Unknown data scaling strategy: " ++ strategy)) ∧
    (pyLower strategy ≠ "transform_to_stationary_returns" →
      pyLower strategy ≠ "test_stationarity" →
      pyLower strategy ≠ "log_stationarity" →
      StationaryReturnsProcessorFactory.create_handler strategy =
        .error ("Unknown stationary returns processing strategy: " ++ strategy)) := by
  refine ⟨fun h1a h1b => ?_, fun h2a h2b sqrtQ => ?_, fun h3a h3b h3c => ?_⟩
  · simp [MissingDataHandlerFactory.create_handler, h1a, h1b]
  · simp [DataScalerFactory.create_handler, h2a, h2b]
  · simp [StationaryReturnsProcessorFactory.create_handler, h3a, h3b, h3c]

/-- Witness for C1: "bogus" is rejected by the missing-data resolver, and
"drop" — valid for the missing-data resolver but outside the other two
sets — is rejected by the scaler and the stationarity resolvers. -/
theorem unknown_strategy_raises_configuration_error_witness :
    MissingDataHandlerFactory.create_handler "bogus" =
      .error "Unknown missing data strategy: bogus" ∧
    DataScalerFactory.create_handler (fun q => q) "drop" =
      .error "Unknown data scaling strategy: drop" ∧
    StationaryReturnsProcessorFactory.create_handler "drop" =
      .error "Unknown stationary returns processing strategy: drop" := by
  have hb := unknown_strategy_raises_configuration_error "bogus"
  have hd := unknown_strategy_raises_configuration_error "drop"
  exact ⟨hb.1 (by decide) (by decide),
    hd.2.1 (by decide) (by decide) (fun q => q),
    hd.2.2 (by decide) (by decide) (by decide)⟩

/-- C9: with the `make_stationary` stage disabled, the input table is
returned for every method string — the disabled check precedes method
dispatch, so even an unknown method raises nothing. -/
theorem make_stationary_disabled_skips_method_validation (data : Table)
    (method : String) (config : Config)
    (h : config.data_processor.make_stationary.enabled = false) :
    StationaryReturnsProcessor.make_stationary data method config = .ok data := by
  simp [StationaryReturnsProcessor.make_stationary, h]

/-- C2 counterexample: with scaling disabled in the configuration
(`scaling.enabled = false`, method "minmax"), `scale_data` still scales:
on the table with one column `a = [1, 3]` it returns `a = [0, 1]`, not the
input — so not every stage passes its input through when disabled. -/
theorem scale_data_ignores_disabled_flag_counterexample :
    scale_data (fun q => q) [⟨"a", .numeric [Cell.num 1, Cell.num 3]⟩]
      ⟨⟨⟨true, "drop"⟩, ⟨false, "minmax"⟩, ⟨true, "difference"⟩,
        ⟨true, "adf", 1/20⟩⟩⟩ =
      .ok [⟨"a", .numeric [Cell.num 0, Cell.num 1]⟩] ∧
    scale_data (fun q => q) [⟨"a", .numeric [Cell.num 1, Cell.num 3]⟩]
      ⟨⟨⟨true, "drop"⟩, ⟨false, "minmax"⟩, ⟨true, "difference"⟩,
        ⟨true, "adf", 1/20⟩⟩⟩ ≠
      .ok [⟨"a", .numeric [Cell.num 1, Cell.num 3]⟩] := by
  have hdisp : scale_data (fun q => q) [⟨"a", .numeric [Cell.num 1, Cell.num 3]⟩]
      ⟨⟨⟨true, "drop"⟩, ⟨false, "minmax"⟩, ⟨true, "difference"⟩,
        ⟨true, "adf", 1/20⟩⟩⟩ =
      .ok (DataScaler.scale_data_minmax [⟨"a", .numeric [Cell.num 1, Cell.num 3]⟩]) :=
    rfl
  have hval : DataScaler.scale_data_minmax [⟨"a", .numeric [Cell.num 1, Cell.num 3]⟩]
      = [⟨"a", .numeric [Cell.num 0, Cell.num 1]⟩] := by
    norm_num [DataScaler.scale_data_minmax, cellMin, cellMax, nonNA, Cell.isNA,
      Cell.minB, Cell.maxB, Cell.sub, Cell.div]
  rw [hdisp, hval]
  refine ⟨rfl, fun hcontra => ?_⟩
  have htab : ([⟨"a", .numeric [Cell.num 0, Cell.num 1]⟩] : Table) =
      [⟨"a", .numeric [Cell.num 1, Cell.num 3]⟩] := by injection hcontra
  have : (Cell.num 0 : Cell) = Cell.num 1 := by
    injection (by injection (congrArg Column.data (List.head_eq_of_cons_eq htab)))
  exact absurd (by injection this) (by norm_num)

/-- C2 amended: the missing-value and stationarity-transformation stages
have enable flags and return the input unchanged when disabled, but the
scaling stage reads no enable flag: `scale_data` depends only on the
configured scaling method, so scaling is applied even when
`scaling.enabled` is false. -/
theorem disabled_stage_passthrough_except_scaling (df : Table) (config : Config)
    (sqrtQ : ℚ → ℚ)
    (h1 : config.data_processor.handle_missing_values.enabled = false)
    (h2 : config.data_processor.make_stationary.enabled = false) :
    fill_data df config = .ok df ∧
    (∀ method : String,
      StationaryReturnsProcessor.make_stationary df method config = .ok df) ∧
    (∀ config' : Config,
      config'.data_processor.scaling.method = config.data_processor.scaling.method →
      scale_data sqrtQ df config' = scale_data sqrtQ df config) := by
  refine ⟨?_, fun method => ?_, fun config' hm => ?_⟩
  · simp [fill_data, h1]
  · simp [StationaryReturnsProcessor.make_stationary, h2]
  · simp [scale_data, hm]

/-- Witness for C2 amended: a config with the first and third stage
disabled and a second config differing in the scaling flag. -/
theorem disabled_stage_passthrough_except_scaling_witness :
    fill_data [⟨"a", .numeric [Cell.na]⟩]
      ⟨⟨⟨false, "drop"⟩, ⟨false, "minmax"⟩, ⟨false, "difference"⟩,
        ⟨true, "adf", 1/20⟩⟩⟩ = .ok [⟨"a", .numeric [Cell.na]⟩] ∧
    StationaryReturnsProcessor.make_stationary [⟨"a", .numeric [Cell.na]⟩]
      "difference"
      ⟨⟨⟨false, "drop"⟩, ⟨false, "minmax"⟩, ⟨false, "difference"⟩,
        ⟨true, "adf", 1/20⟩⟩⟩ = .ok [⟨"a", .numeric [Cell.na]⟩] ∧
    scale_data (fun q => q) [⟨"a", .numeric [Cell.na]⟩]
      ⟨⟨⟨true, "drop"⟩, ⟨true, "minmax"⟩, ⟨true, "difference"⟩,
        ⟨true, "adf", 1/20⟩⟩⟩ =
      scale_data (fun q => q) [⟨"a", .numeric [Cell.na]⟩]
      ⟨⟨⟨false, "drop"⟩, ⟨false, "minmax"⟩, ⟨false, "difference"⟩,
        ⟨true, "adf", 1/20⟩⟩⟩ := by
  have h := disabled_stage_passthrough_except_scaling
    [⟨"a", .numeric [Cell.na]⟩]
    ⟨⟨⟨false, "drop"⟩, ⟨false, "minmax"⟩, ⟨false, "difference"⟩,
      ⟨true, "adf", 1/20⟩⟩⟩ (fun q => q) rfl rfl
  exact ⟨h.1, h.2.1 "difference",
    h.2.2 ⟨⟨⟨true, "drop"⟩, ⟨true, "minmax"⟩, ⟨true, "difference"⟩,
      ⟨true, "adf", 1/20⟩⟩⟩ rfl⟩

/-- C5: `log_adf_results` emits one interpretation line per report entry
(total on well-formed input, returning no table), and the line for an
entry reads "stationary" precisely when its p-value is strictly below the
threshold, and "non-stationary" precisely when it is not. -/
theorem log_adf_results_classifies_by_strict_threshold
    (report : List (String × AdfRecord)) (p_value_threshold : ℚ)
    (i : Nat) (h : i < report.length) :
    (StationaryReturnsProcessor.log_adf_results report p_value_threshold).length =
      report.length ∧
    ((StationaryReturnsProcessor.log_adf_results report p_value_threshold).get? i =
        some ((report.get ⟨i, h⟩).1, stationaryMsg) ↔
      (report.get ⟨i, h⟩).2.p_value < p_value_threshold) ∧
    ((StationaryReturnsProcessor.log_adf_results report p_value_threshold).get? i =
        some ((report.get ⟨i, h⟩).1, nonStationaryMsg) ↔
      ¬ (report.get ⟨i, h⟩).2.p_value < p_value_threshold) := by
  have hmsg : stationaryMsg ≠ nonStationaryMsg := by decide
  have key : (StationaryReturnsProcessor.log_adf_results report p_value_threshold).get? i =
      some ((report.get ⟨i, h⟩).1,
        interpretAdf (report.get ⟨i, h⟩).2.p_value p_value_threshold) := by
    have hget : report.get? i = some (report.get ⟨i, h⟩) := List.get?_eq_get h
    simp only [StationaryReturnsProcessor.log_adf_results, List.get?_map, hget,
      Option.map_some']
  refine ⟨List.length_map _ _, ?_, ?_⟩ <;> rw [key] <;>
    by_cases hp : (report.get ⟨i, h⟩).2.p_value < p_value_threshold <;>
    simp [interpretAdf, hp, hmsg, hmsg.symm]

/-- Witness for C5 on a two-entry report straddling the threshold. -/
theorem log_adf_results_classifies_by_strict_threshold_witness :
    (StationaryReturnsProcessor.log_adf_results
        [("a", ⟨-3, 1/100⟩), ("b", ⟨-1, 1/2⟩)] (1/20)).get? 0 =
      some ("a", stationaryMsg) ∧
    (StationaryReturnsProcessor.log_adf_results
        [("a", ⟨-3, 1/100⟩), ("b", ⟨-1, 1/2⟩)] (1/20)).get? 1 =
      some ("b", nonStationaryMsg) := by
  have h0 := log_adf_results_classifies_by_strict_threshold
    [("a", ⟨-3, 1/100⟩), ("b", ⟨-1, 1/2⟩)] (1/20) 0 (by decide)
  have h1 := log_adf_results_classifies_by_strict_threshold
    [("a", ⟨-3, 1/100⟩), ("b", ⟨-1, 1/2⟩)] (1/20) 1 (by decide)
  exact ⟨h0.2.1.mpr (by norm_num), h1.2.2.mpr (by norm_num)⟩

/-- Witness for C9: a disabled config and the unknown method "garbage". -/
theorem make_stationary_disabled_skips_method_validation_witness :
    StationaryReturnsProcessor.make_stationary
      [⟨"a", .numeric [Cell.num 1]⟩] "garbage"
      ⟨⟨⟨true, "drop"⟩, ⟨true, "minmax"⟩, ⟨false, "difference"⟩,
        ⟨true, "adf", 1/20⟩⟩⟩ =
      .ok [⟨"a", .numeric [Cell.num 1]⟩] :=
  make_stationary_disabled_skips_method_validation _ _ _ rfl

end Garch
